import Mathlib

/-!
Shallow embedding of `src/app.py` (multimodel-preference-tool).

The program is a validated fan-out loop over a static model registry plus an
append-only CSV preference log.  We embed:

* `MODEL_MAP`, `LENGTH_MAP` — the static registries (Python dicts become
  ordered association lists; `dict.get` / `dict[k]` become lookups).
* `query_model` — the inference client.  The external completion API is a
  parameter `oracle : ApiCall → Except String String`; `Except.error e`
  models the API raising an exception with message `str(e)`.  The embedding
  also returns the list of outbound API calls actually issued, so that
  "zero outbound calls" claims are statable.
* `compare_models` — the orchestrator.  Its result lives in
  `Except String _` because `LENGTH_MAP[output_length]` can raise `KeyError`
  in Python; the `.ok` payload is the `(results, error)` pair returned to
  the UI plus the trace of outbound calls.
* `save_preference_to_storage` / `record_preference` — the preference
  recorder.  The CSV file is `Option (List String)` (`none` = the file does
  not exist; `some lines` = its lines).  `datetime.now().isoformat()` is an
  explicit timestamp parameter.  The CSV row serialization (Python `csv`
  default dialect, minimal quoting), the `'|'.join`, and `json.dumps` with
  `ensure_ascii=False` are embedded as executable encoders, with matching
  parsers defined for the round-trip claims.
-/

/-- Python whitespace for `str.strip()` (the ASCII whitespace characters). -/
def pyIsSpace (c : Char) : Bool :=
  c = ' ' || c = '\t' || c = '\n' || c = '\r' || c = '\x0b' || c = '\x0c'

/-- Python `s.strip()`: remove leading and trailing whitespace. -/
def pythonStrip (s : String) : String :=
  String.mk (((s.data.dropWhile pyIsSpace).reverse.dropWhile pyIsSpace).reverse)

/-- `MODEL_MAP` from app.py: display name ↦ Groq model id, in source order. -/
def MODEL_MAP : List (String × String) :=
  [("Llama 3.1 8B", "llama-3.1-8b-instant"),
   ("Llama 3.3 70B", "llama-3.3-70b-versatile"),
   ("GPT OSS 20B", "openai/gpt-oss-20b"),
   ("GPT OSS 120B", "openai/gpt-oss-120b")]

/-- `LENGTH_MAP` from app.py: output-length label ↦ max_tokens. -/
def LENGTH_MAP : List (String × Nat) :=
  [("Short", 150), ("Medium", 500), ("Full", 1500)]

/-- Python `d.get(k)` / `k in d` on an ordered dict represented as an
association list (keys in the literals are distinct). -/
def pyDictGet {α : Type} (d : List (String × α)) (k : String) : Option α :=
  (d.find? (fun p => p.1 == k)).map (·.2)

/-- `MODEL_MAP.keys()` in source order. -/
def registryNames : List String := MODEL_MAP.map (·.1)

/-- One outbound request to `client.chat.completions.create`: the fields of
the request that app.py fills in. -/
structure ApiCall where
  model_id : String
  question : String
  max_tokens : Nat
  temperature : ℚ
  deriving DecidableEq, Repr

/-- The fixed temperature used for every call in app.py. -/
def fixedTemperature : ℚ := 7/10

/-- One entry of the result list: `{"model": ..., "response": ...}`. -/
structure ModelResult where
  model : String
  response : String
  deriving DecidableEq, Repr

/-- `query_model(model_name, question, max_tokens)` from app.py.

`oracle` is the external completion API: `.ok text` is a successful
completion, `.error e` models the call raising an exception `e`.  The
returned pair is (the string `query_model` returns, the outbound calls it
issued).  The `try/except` of the source is the `match` on the oracle's
outcome: every exception is converted to `"Error: " ++ e`.  The falsy test
`if not model_id` also treats an empty-string id as unavailable. -/
def query_model (oracle : ApiCall → Except String String)
    (model_name question : String) (max_tokens : Nat) : String × List ApiCall :=
  match pyDictGet MODEL_MAP model_name with
  | none => ("Model " ++ model_name ++ " not available", [])
  | some model_id =>
    if model_id = "" then ("Model " ++ model_name ++ " not available", [])
    else
      let call : ApiCall :=
        { model_id := model_id, question := question,
          max_tokens := max_tokens, temperature := fixedTemperature }
      match oracle call with
      | Except.ok content => (content, [call])
      | Except.error e => ("Error: " ++ e, [call])

/-- The models the checkbox booleans select, in registry order:
`[model for model, is_selected in zip(MODEL_MAP.keys(), selected_models) if is_selected]`. -/
def selectedNames (selected_models : List Bool) : List String :=
  (registryNames.zip selected_models).filterMap
    (fun p => if p.2 then some p.1 else none)

/-- `compare_models(question, output_length, *selected_models)` from app.py.

The outer `Except String` layer models a Python exception escaping the
function: the only such exception is the `KeyError` from
`LENGTH_MAP[output_length]`.  The `.ok` payload is the returned pair
`(results, error)` together with the trace of outbound API calls. -/
def compare_models (oracle : ApiCall → Except String String)
    (question output_length : String) (selected_models : List Bool) :
    Except String (Option (List ModelResult) × Option String × List ApiCall) :=
  let selected := selectedNames selected_models
  if pythonStrip question = "" then
    Except.ok (none, some "Please enter a question.", [])
  else if selected = [] then
    Except.ok (none, some "Please select at least one model.", [])
  else
    match pyDictGet LENGTH_MAP output_length with
    | none => Except.error ("KeyError: " ++ output_length)
    | some max_tokens =>
      let results := selected.map (fun model_name =>
        { model := model_name,
          response := (query_model oracle model_name question max_tokens).1 })
      let calls := selected.flatMap (fun model_name =>
        (query_model oracle model_name question max_tokens).2)
      Except.ok (some results, none, calls)

/-- An oracle whose every call succeeds with a fixed completion. -/
def stubOracle : ApiCall → Except String String := fun _ => Except.ok "a completion"

/-- An oracle whose every call raises. -/
def failOracle : ApiCall → Except String String := fun _ => Except.error "boom"

example :
    compare_models stubOracle "q" "Short" [true, false, true] =
      Except.ok (some [⟨"Llama 3.1 8B", "a completion"⟩, ⟨"GPT OSS 20B", "a completion"⟩],
        none,
        [⟨"llama-3.1-8b-instant", "q", 150, fixedTemperature⟩,
         ⟨"openai/gpt-oss-20b", "q", 150, fixedTemperature⟩]) := rfl

example :
    compare_models stubOracle "  " "Short" [true] =
      Except.ok (none, some "Please enter a question.", []) := rfl

example :
    compare_models stubOracle "q" "Bogus" [true] =
      Except.error "KeyError: Bogus" := rfl

example :
    query_model failOracle "Llama 3.1 8B" "q" 150 =
      ("Error: boom", [⟨"llama-3.1-8b-instant", "q", 150, fixedTemperature⟩]) := rfl


/-! ### CSV row serialization and re-parsing (Python csv default dialect) -/

def csvQuotedTail : List Char → Option (List Char × List Char)
  | [] => none
  | c :: rest =>
    if c = '"' then
      match rest with
      | [] => some ([], [])
      | d :: rest2 =>
        if d = '"' then (csvQuotedTail rest2).map (fun p => ('"' :: p.1, p.2))
        else some ([], rest)
    else (csvQuotedTail rest).map (fun p => (c :: p.1, p.2))

theorem csvQuotedTail_length (l : List Char) :
    ∀ f r, csvQuotedTail l = some (f, r) → r.length < l.length := by
  induction l using csvQuotedTail.induct with
  | case1 => intro f r h; simp [csvQuotedTail] at h
  | case2 => intro f r h; simp [csvQuotedTail] at h; simp [← h.2]
  | case3 rest2 ih =>
    intro f r h
    simp only [csvQuotedTail] at h
    match hq : csvQuotedTail rest2 with
    | none => rw [hq] at h; simp at h
    | some (f2, r2) =>
      rw [hq] at h
      simp at h
      have := ih f2 r2 hq
      simp [← h.2]
      omega
  | case4 d rest2 hd =>
    intro f r h
    simp [csvQuotedTail, hd] at h
    simp [← h.2]
  | case5 d rest2 hd ih =>
    intro f r h
    rw [csvQuotedTail.eq_def] at h
    dsimp only at h
    rw [if_neg hd] at h
    match hq : csvQuotedTail rest2 with
    | none => rw [hq] at h; simp at h
    | some (f2, r2) =>
      rw [hq] at h
      simp at h
      have := ih f2 r2 hq
      simp [← h.2]
      omega

theorem length_dropWhile_le (p : Char → Bool) (l : List Char) :
    (l.dropWhile p).length ≤ l.length := by
  induction l with
  | nil => simp [List.dropWhile]
  | cons c cs ih =>
    simp only [List.dropWhile]
    split
    · exact ih.trans (by simp)
    · simp

def csvNeedsQuote (f : List Char) : Bool :=
  f.any (fun c => c = ',' || c = '"' || c = '\r' || c = '\n')

def csvEscape (f : List Char) : List Char :=
  f.flatMap (fun c => if c = '"' then ['"', '"'] else [c])

def csvField (f : List Char) : List Char :=
  if csvNeedsQuote f then '"' :: (csvEscape f ++ ['"']) else f

def csvRowChars : List (List Char) → List Char
  | [] => []
  | [f] => csvField f
  | f :: fs => csvField f ++ ',' :: csvRowChars fs

def csvSplitFields (l : List Char) : Option (List (List Char)) :=
  match l with
  | [] => some [[]]
  | c :: rest =>
    if c = '"' then
      match hq : csvQuotedTail rest with
      | none => none
      | some (f, r) =>
        if r = [] then some [f]
        else if r.head? = some ',' then (csvSplitFields r.tail).map (f :: ·)
        else none
    else
      if hd : (c :: rest).dropWhile (fun x => x != ',') = [] then
        some [(c :: rest).takeWhile (fun x => x != ',')]
      else
        (csvSplitFields ((c :: rest).dropWhile (fun x => x != ',')).tail).map
          ((c :: rest).takeWhile (fun x => x != ',') :: ·)
termination_by l.length
decreasing_by
  · have h1 := csvQuotedTail_length rest2 f r hq
    simp only [List.length_tail, List.length_cons]
    omega
  · have h1 := length_dropWhile_le (fun x => x != ',') (d :: rest2)
    have h2 : (List.dropWhile (fun x => x != ',') (d :: rest2)).length ≠ 0 := by
      simpa using hd
    simp only [List.length_tail, List.length_cons] at *
    omega

theorem csvQuotedTail_escape (rest : List Char) (hrest : rest.head? ≠ some '"')
    (f : List Char) :
    csvQuotedTail (csvEscape f ++ '"' :: rest) = some (f, rest) := by
  induction f with
  | nil =>
    cases rest with
    | nil => simp [csvEscape, csvQuotedTail]
    | cons d rest2 =>
      have hd : d ≠ '"' := by intro h; exact hrest (by simp [h])
      simp [csvEscape, csvQuotedTail, hd]
  | cons c f' ih =>
    by_cases hc : c = '"'
    · subst hc
      have hshape : csvEscape ('"' :: f') ++ '"' :: rest =
          '"' :: '"' :: (csvEscape f' ++ '"' :: rest) := by simp [csvEscape]
      rw [hshape]
      simp only [csvQuotedTail]
      rw [ih]
      rfl
    · have hshape : csvEscape (c :: f') ++ '"' :: rest =
          c :: (csvEscape f' ++ '"' :: rest) := by simp [csvEscape, hc]
      rw [hshape, csvQuotedTail.eq_def]
      dsimp only
      rw [if_neg hc, ih]
      rfl

theorem takeWhile_sep_append (sep : Char) (f rest : List Char)
    (hf : ∀ c ∈ f, c ≠ sep) :
    (f ++ sep :: rest).takeWhile (fun x => x != sep) = f := by
  induction f with
  | nil => simp [List.takeWhile]
  | cons c f' ih =>
    have hc : (c != sep) = true := by simp [hf c (by simp)]
    simp [List.takeWhile_cons, hc, ih (fun d hd => hf d (by simp [hd]))]

theorem dropWhile_sep_append (sep : Char) (f rest : List Char)
    (hf : ∀ c ∈ f, c ≠ sep) :
    (f ++ sep :: rest).dropWhile (fun x => x != sep) = sep :: rest := by
  induction f with
  | nil => simp [List.dropWhile]
  | cons c f' ih =>
    have hc : (c != sep) = true := by simp [hf c (by simp)]
    simp [List.dropWhile_cons, hc, ih (fun d hd => hf d (by simp [hd]))]

theorem takeWhile_sep_all (sep : Char) (f : List Char) (hf : ∀ c ∈ f, c ≠ sep) :
    f.takeWhile (fun x => x != sep) = f := by
  induction f with
  | nil => simp
  | cons c f' ih =>
    have hc : (c != sep) = true := by simp [hf c (by simp)]
    simp [List.takeWhile_cons, hc, ih (fun d hd => hf d (by simp [hd]))]

theorem dropWhile_sep_all (sep : Char) (f : List Char) (hf : ∀ c ∈ f, c ≠ sep) :
    f.dropWhile (fun x => x != sep) = [] := by
  induction f with
  | nil => simp
  | cons c f' ih =>
    have hc : (c != sep) = true := by simp [hf c (by simp)]
    simp [List.dropWhile_cons, hc, ih (fun d hd => hf d (by simp [hd]))]

theorem csvNeedsQuote_false (f : List Char) (h : csvNeedsQuote f = false) :
    ∀ c ∈ f, c ≠ ',' ∧ c ≠ '"' := by
  intro c hc
  simp only [csvNeedsQuote, List.any_eq_false] at h
  have := h c hc
  simp only [Bool.or_eq_true, decide_eq_true_eq] at this
  push_neg at this
  exact ⟨this.1.1.1, this.1.1.2⟩

theorem csvSplitFields_single (f : List Char) :
    csvSplitFields (csvField f) = some [f] := by
  by_cases hq : csvNeedsQuote f
  · have hshape : csvField f = '"' :: (csvEscape f ++ '"' :: []) := by
      simp [csvField, hq]
    rw [hshape, csvSplitFields.eq_def]
    dsimp only
    rw [if_pos rfl]
    have hesc := csvQuotedTail_escape [] (by simp) f
    split
    · rename_i heq
      rw [hesc] at heq
      cases heq
    · rename_i f' r' heq
      rw [hesc] at heq
      injection heq with heq2
      injection heq2 with hf hr
      subst hf
      subst hr
      simp
  · have hnospec := csvNeedsQuote_false f (by simpa using hq)
    have hshape : csvField f = f := by simp [csvField, hq]
    rw [hshape]
    cases f with
    | nil => simp [csvSplitFields.eq_def]
    | cons c cs =>
      have hc : c ≠ '"' := (hnospec c (by simp)).2
      have hdw := dropWhile_sep_all ',' (c :: cs) (fun d hd => (hnospec d hd).1)
      have htw := takeWhile_sep_all ',' (c :: cs) (fun d hd => (hnospec d hd).1)
      rw [csvSplitFields.eq_def]
      dsimp only
      rw [if_neg hc, dif_pos hdw, htw]

theorem csvSplitFields_rowChars (fields : List (List Char)) (hne : fields ≠ []) :
    csvSplitFields (csvRowChars fields) = some fields := by
  induction fields with
  | nil => exact absurd rfl hne
  | cons f fs ih =>
    cases fs with
    | nil => exact csvSplitFields_single f
    | cons g gs =>
      have htail := ih (by simp)
      have hrow : csvRowChars (f :: g :: gs) = csvField f ++ ',' :: csvRowChars (g :: gs) := rfl
      rw [hrow]
      by_cases hq : csvNeedsQuote f
      · have hshape : csvField f ++ ',' :: csvRowChars (g :: gs) =
            '"' :: (csvEscape f ++ '"' :: (',' :: csvRowChars (g :: gs))) := by
          simp [csvField, hq]
        rw [hshape, csvSplitFields.eq_def]
        dsimp only
        rw [if_pos rfl]
        have hesc := csvQuotedTail_escape (',' :: csvRowChars (g :: gs)) (by simp) f
        split
        · rename_i heq
          rw [hesc] at heq
          cases heq
        · rename_i f' r' heq
          rw [hesc] at heq
          injection heq with heq2
          injection heq2 with hf hr
          subst hf
          subst hr
          rw [if_neg (by simp), if_pos (by simp)]
          simp [htail]
      · have hnospec := csvNeedsQuote_false f (by simpa using hq)
        have hshape : csvField f ++ ',' :: csvRowChars (g :: gs) =
            f ++ ',' :: csvRowChars (g :: gs) := by simp [csvField, hq]
        rw [hshape]
        have hdw := dropWhile_sep_append ',' f (csvRowChars (g :: gs))
          (fun d hd => (hnospec d hd).1)
        have htw := takeWhile_sep_append ',' f (csvRowChars (g :: gs))
          (fun d hd => (hnospec d hd).1)
        cases f with
        | nil =>
          rw [List.nil_append, csvSplitFields.eq_def]
          dsimp only
          rw [if_neg (by decide : ¬(',' = '"'))]
          rw [dif_neg (by simp [List.dropWhile_cons])]
          simp [List.dropWhile_cons, List.takeWhile_cons, htail]
        | cons c cs =>
          have hc : c ≠ '"' := (hnospec c (by simp)).2
          rw [List.cons_append, csvSplitFields.eq_def]
          dsimp only
          rw [if_neg hc]
          rw [show (c :: (cs ++ ',' :: csvRowChars (g :: gs))) =
              ((c :: cs) ++ ',' :: csvRowChars (g :: gs)) from rfl]
          rw [dif_neg (by simp [hdw]), hdw, htw]
          simp [htail]

/-! ### json.dumps serialization and re-parsing -/

/-- One hexadecimal digit, lowercase, as json.dumps prints it. -/
def hexDigitChar (n : Nat) : Char :=
  if n < 10 then Char.ofNat (48 + n) else Char.ofNat (87 + n)

def hexVal (c : Char) : Option Nat :=
  if '0' ≤ c ∧ c ≤ '9' then some (c.toNat - 48)
  else if 'a' ≤ c ∧ c ≤ 'f' then some (c.toNat - 87)
  else none

theorem hexVal_hexDigitChar (n : Nat) (h : n < 16) :
    hexVal (hexDigitChar n) = some n := by
  interval_cases n <;> decide

/-- How json.dumps (ensure_ascii=False) escapes one character inside a
string literal. -/
def jsonEscapeChar (c : Char) : List Char :=
  if c = '"' then ['\\', '"']
  else if c = '\\' then ['\\', '\\']
  else if c = '\x08' then ['\\', 'b']
  else if c = '\x0c' then ['\\', 'f']
  else if c = '\n' then ['\\', 'n']
  else if c = '\r' then ['\\', 'r']
  else if c = '\t' then ['\\', 't']
  else if c.toNat < 32 then
    ['\\', 'u', '0', '0', hexDigitChar (c.toNat / 16), hexDigitChar (c.toNat % 16)]
  else [c]

/-- A json string literal (opening quote, escaped body, closing quote). -/
def jsonStringChars (s : List Char) : List Char :=
  '"' :: (s.flatMap jsonEscapeChar ++ ['"'])

/-- Decode four hex digits into a code point. -/
def hexQuad (a b c d : Char) : Option Nat :=
  match hexVal a, hexVal b, hexVal c, hexVal d with
  | some x, some y, some z, some w => some (((x * 16 + y) * 16 + z) * 16 + w)
  | _, _, _, _ => none

theorem hexQuad_encode (n : Nat) (h : n < 256) :
    hexQuad '0' '0' (hexDigitChar (n / 16)) (hexDigitChar (n % 16)) = some n := by
  rw [hexQuad]
  rw [show hexVal '0' = some 0 from by decide]
  rw [hexVal_hexDigitChar (n / 16) (by omega), hexVal_hexDigitChar (n % 16) (by omega)]
  simp
  omega

/-- Decode the body of a json string literal after its opening quote;
returns the decoded text and the characters after the closing quote. -/
def jsonStringTail : List Char → Option (List Char × List Char)
  | [] => none
  | c :: rest =>
    if c = '"' then some ([], rest)
    else if c = '\\' then
      match rest with
      | [] => none
      | e :: rest2 =>
        if e = '"' then (jsonStringTail rest2).map (fun p => ('"' :: p.1, p.2))
        else if e = '\\' then (jsonStringTail rest2).map (fun p => ('\\' :: p.1, p.2))
        else if e = 'b' then (jsonStringTail rest2).map (fun p => ('\x08' :: p.1, p.2))
        else if e = 'f' then (jsonStringTail rest2).map (fun p => ('\x0c' :: p.1, p.2))
        else if e = 'n' then (jsonStringTail rest2).map (fun p => ('\n' :: p.1, p.2))
        else if e = 'r' then (jsonStringTail rest2).map (fun p => ('\r' :: p.1, p.2))
        else if e = 't' then (jsonStringTail rest2).map (fun p => ('\t' :: p.1, p.2))
        else if e = 'u' then
          match rest2 with
          | h1 :: h2 :: h3 :: h4 :: rest3 =>
            match hexQuad h1 h2 h3 h4 with
            | some n => (jsonStringTail rest3).map (fun p => (Char.ofNat n :: p.1, p.2))
            | none => none
          | _ => none
        else none
    else (jsonStringTail rest).map (fun p => (c :: p.1, p.2))

theorem jsonStringTail_escape (rest : List Char) (s : List Char) :
    jsonStringTail (s.flatMap jsonEscapeChar ++ '"' :: rest) = some (s, rest) := by
  induction s with
  | nil => simp [jsonStringTail.eq_def]
  | cons c s' ih =>
    simp only [List.flatMap_cons, List.append_assoc]
    by_cases h1 : c = '"'
    · subst h1
      have hesc : jsonEscapeChar '"' = ['\\', '"'] := by simp [jsonEscapeChar]
      rw [hesc]
      simp only [List.cons_append, List.nil_append]
      rw [jsonStringTail.eq_def]
      dsimp only
      rw [if_neg (by decide), if_pos rfl, if_pos rfl, ih]
      rfl
    by_cases h2 : c = '\\'
    · subst h2
      have hesc : jsonEscapeChar '\\' = ['\\', '\\'] := by simp [jsonEscapeChar]
      rw [hesc]
      simp only [List.cons_append, List.nil_append]
      rw [jsonStringTail.eq_def]
      dsimp only
      rw [if_neg (by decide), if_pos rfl, if_neg (by decide), if_pos rfl, ih]
      rfl
    by_cases h3 : c = '\x08'
    · subst h3
      have hesc : jsonEscapeChar '\x08' = ['\\', 'b'] := by simp [jsonEscapeChar]
      rw [hesc]
      simp only [List.cons_append, List.nil_append]
      rw [jsonStringTail.eq_def]
      dsimp only
      rw [if_neg (by decide), if_pos rfl, if_neg (by decide), if_neg (by decide),
        if_pos rfl, ih]
      rfl
    by_cases h4 : c = '\x0c'
    · subst h4
      have hesc : jsonEscapeChar '\x0c' = ['\\', 'f'] := by simp [jsonEscapeChar]
      rw [hesc]
      simp only [List.cons_append, List.nil_append]
      rw [jsonStringTail.eq_def]
      dsimp only
      rw [if_neg (by decide), if_pos rfl, if_neg (by decide), if_neg (by decide),
        if_neg (by decide), if_pos rfl, ih]
      rfl
    by_cases h5 : c = '\n'
    · subst h5
      have hesc : jsonEscapeChar '\n' = ['\\', 'n'] := by simp [jsonEscapeChar]
      rw [hesc]
      simp only [List.cons_append, List.nil_append]
      rw [jsonStringTail.eq_def]
      dsimp only
      rw [if_neg (by decide), if_pos rfl, if_neg (by decide), if_neg (by decide),
        if_neg (by decide), if_neg (by decide), if_pos rfl, ih]
      rfl
    by_cases h6 : c = '\r'
    · subst h6
      have hesc : jsonEscapeChar '\r' = ['\\', 'r'] := by simp [jsonEscapeChar]
      rw [hesc]
      simp only [List.cons_append, List.nil_append]
      rw [jsonStringTail.eq_def]
      dsimp only
      rw [if_neg (by decide), if_pos rfl, if_neg (by decide), if_neg (by decide),
        if_neg (by decide), if_neg (by decide), if_neg (by decide), if_pos rfl, ih]
      rfl
    by_cases h7 : c = '\t'
    · subst h7
      have hesc : jsonEscapeChar '\t' = ['\\', 't'] := by simp [jsonEscapeChar]
      rw [hesc]
      simp only [List.cons_append, List.nil_append]
      rw [jsonStringTail.eq_def]
      dsimp only
      rw [if_neg (by decide), if_pos rfl, if_neg (by decide), if_neg (by decide),
        if_neg (by decide), if_neg (by decide), if_neg (by decide), if_neg (by decide),
        if_pos rfl, ih]
      rfl
    by_cases h8 : c.toNat < 32
    · have hesc : jsonEscapeChar c =
          ['\\', 'u', '0', '0', hexDigitChar (c.toNat / 16), hexDigitChar (c.toNat % 16)] := by
        simp [jsonEscapeChar, h1, h2, h3, h4, h5, h6, h7, h8]
      rw [hesc]
      simp only [List.cons_append, List.nil_append]
      rw [jsonStringTail.eq_def]
      dsimp only
      rw [if_neg (by decide), if_pos rfl, if_neg (by decide), if_neg (by decide),
        if_neg (by decide), if_neg (by decide), if_neg (by decide), if_neg (by decide),
        if_neg (by decide), if_pos rfl]
      rw [hexQuad_encode c.toNat (by omega)]
      dsimp only
      rw [ih, Char.ofNat_toNat]
      rfl
    · have hesc : jsonEscapeChar c = [c] := by
        simp [jsonEscapeChar, h1, h2, h3, h4, h5, h6, h7, h8]
      rw [hesc]
      simp only [List.cons_append, List.nil_append]
      rw [jsonStringTail.eq_def]
      dsimp only
      rw [if_neg h1, if_neg h2, ih]
      rfl

theorem jsonStringTail_length (l : List Char) :
    ∀ f r, jsonStringTail l = some (f, r) → r.length < l.length := by
  induction l using jsonStringTail.induct with
  | case1 =>
    intro f r h
    rw [jsonStringTail.eq_def] at h
    simp at h
  | case2 rest2 =>
    intro f r h
    rw [jsonStringTail.eq_def] at h
    simp at h
    obtain ⟨h1, h2⟩ := h
    subst h2
    simp
  | case3 hx =>
    intro f r h
    rw [jsonStringTail.eq_def] at h
    simp at h
  | case4 rest2 hx ih =>
    intro f r h
    rw [jsonStringTail.eq_def] at h
    simp at h
    obtain ⟨a, hq, h2⟩ := h
    have := ih a r hq
    simp
    omega
  | case5 rest2 hx1 hx2 ih =>
    intro f r h
    rw [jsonStringTail.eq_def] at h
    simp at h
    obtain ⟨a, hq, h2⟩ := h
    have := ih a r hq
    simp
    omega
  | case6 rest2 hx1 hx2 hx3 ih =>
    intro f r h
    rw [jsonStringTail.eq_def] at h
    simp at h
    obtain ⟨a, hq, h2⟩ := h
    have := ih a r hq
    simp
    omega
  | case7 rest2 hx1 hx2 hx3 hx4 ih =>
    intro f r h
    rw [jsonStringTail.eq_def] at h
    simp at h
    obtain ⟨a, hq, h2⟩ := h
    have := ih a r hq
    simp
    omega
  | case8 rest2 hx1 hx2 hx3 hx4 hx5 ih =>
    intro f r h
    rw [jsonStringTail.eq_def] at h
    simp at h
    obtain ⟨a, hq, h2⟩ := h
    have := ih a r hq
    simp
    omega
  | case9 rest2 hx1 hx2 hx3 hx4 hx5 hx6 ih =>
    intro f r h
    rw [jsonStringTail.eq_def] at h
    simp at h
    obtain ⟨a, hq, h2⟩ := h
    have := ih a r hq
    simp
    omega
  | case10 rest2 hx1 hx2 hx3 hx4 hx5 hx6 hx7 ih =>
    intro f r h
    rw [jsonStringTail.eq_def] at h
    simp at h
    obtain ⟨a, hq, h2⟩ := h
    have := ih a r hq
    simp
    omega
  | case11 h1c h2c h3c h4c rest3 n hq hx1 hx2 hx3 hx4 hx5 hx6 hx7 hx8 ih =>
    intro f r h
    rw [jsonStringTail.eq_def] at h
    simp [hq] at h
    obtain ⟨a, hqq, h2⟩ := h
    have := ih a r hqq
    simp
    omega
  | case12 h1c h2c h3c h4c rest3 hq hx1 hx2 hx3 hx4 hx5 hx6 hx7 hx8 =>
    intro f r h
    rw [jsonStringTail.eq_def] at h
    simp [hq] at h
  | case13 rest2 hshape hx1 hx2 hx3 hx4 hx5 hx6 hx7 hx8 =>
    intro f r h
    rw [jsonStringTail.eq_def] at h
    rcases rest2 with _ | ⟨a, _ | ⟨b, _ | ⟨c3, _ | ⟨d, t⟩⟩⟩⟩
    · simp at h
    · simp at h
    · simp at h
    · simp at h
    · exact (hshape a b c3 d t rfl).elim
  | case14 e rest2 he1 he2 he3 he4 he5 he6 he7 he8 hx =>
    intro f r h
    rw [jsonStringTail.eq_def] at h
    simp [he1, he2, he3, he4, he5, he6, he7, he8] at h
  | case15 e rest2 he1 he2 ih =>
    intro f r h
    rw [jsonStringTail.eq_def] at h
    simp [he1, he2] at h
    obtain ⟨a, hq, h2⟩ := h
    have := ih a r hq
    simp
    omega

/-- The json object body json.dumps prints (default separators: items joined
by a comma and space, key and value joined by a colon and space). -/
def jsonDumpPairs : List (String × String) → List Char
  | [] => []
  | [(k, v)] => jsonStringChars k.data ++ ':' :: ' ' :: jsonStringChars v.data
  | (k, v) :: ps =>
    (jsonStringChars k.data ++ ':' :: ' ' :: jsonStringChars v.data) ++
      ',' :: ' ' :: jsonDumpPairs ps

/-- `json.dumps` of a string-to-string object, `ensure_ascii=False`. -/
def jsonDumpChars (d : List (String × String)) : List Char :=
  '\x7b' :: (jsonDumpPairs d ++ ['\x7d'])

/-- Decode a nonempty sequence of key-value pairs followed by the closing
brace. -/
def jsonPairsTail (l : List Char) : Option (List (String × String)) :=
  match l with
  | [] => none
  | c :: rest =>
    if c = '"' then
      match hk : jsonStringTail rest with
      | none => none
      | some (k, r1) =>
        match hr1 : r1 with
        | a :: b :: c2 :: r2 =>
          if a = ':' ∧ b = ' ' ∧ c2 = '"' then
            match hv : jsonStringTail r2 with
            | none => none
            | some (v, r3) =>
              if r3 = ['\x7d'] then some [(String.mk k, String.mk v)]
              else
                match hr3 : r3 with
                | d :: e :: r4 =>
                  if d = ',' ∧ e = ' ' then
                    (jsonPairsTail r4).map (fun ps => (String.mk k, String.mk v) :: ps)
                  else none
                | _ => none
          else none
        | _ => none
    else none
termination_by l.length
decreasing_by
  have hl1 := jsonStringTail_length rest2 k (a :: b :: c2 :: r2) hk
  have hl2 := jsonStringTail_length r2 v (d :: e :: r4) hv
  simp at hl1 hl2 ⊢
  omega

/-- Parse back the output of `jsonDumpChars`. -/
def jsonParseChars (l : List Char) : Option (List (String × String)) :=
  match l with
  | [] => none
  | c :: rest =>
    if c = '\x7b' then
      if rest = ['\x7d'] then some [] else jsonPairsTail rest
    else none

theorem strMkData (s : String) : String.mk s.data = s := by cases s; rfl

theorem jsonPairsTail_dump (ps : List (String × String)) (hne : ps ≠ []) :
    jsonPairsTail (jsonDumpPairs ps ++ ['\x7d']) = some ps := by
  induction ps with
  | nil => exact absurd rfl hne
  | cons p ps' ih =>
    obtain ⟨k, v⟩ := p
    cases ps' with
    | nil =>
      have hshape : jsonDumpPairs [(k, v)] ++ ['\x7d'] =
          '"' :: (k.data.flatMap jsonEscapeChar ++
            '"' :: (':' :: ' ' :: ('"' :: (v.data.flatMap jsonEscapeChar ++
              '"' :: ['\x7d'])))) := by
        simp [jsonDumpPairs, jsonStringChars]
      rw [hshape, jsonPairsTail.eq_def]
      dsimp only
      rw [if_pos rfl]
      have hk1 := jsonStringTail_escape
        (':' :: ' ' :: ('"' :: (v.data.flatMap jsonEscapeChar ++ '"' :: ['\x7d']))) k.data
      split
      · rename_i heq
        rw [hk1] at heq
        cases heq
      · rename_i k' r1' heq
        rw [hk1] at heq
        injection heq with heq2
        injection heq2 with hkk hrr
        subst hkk
        subst hrr
        dsimp only
        rw [if_pos (by exact ⟨rfl, rfl, rfl⟩)]
        have hv1 := jsonStringTail_escape ['\x7d'] v.data
        split
        · rename_i heq3
          rw [hv1] at heq3
          cases heq3
        · rename_i v' r3' heq3
          rw [hv1] at heq3
          injection heq3 with heq4
          injection heq4 with hvv hrr3
          subst hvv
          subst hrr3
          dsimp only
          rw [if_pos rfl]
    | cons q qs =>
      have hshape : jsonDumpPairs ((k, v) :: q :: qs) ++ ['\x7d'] =
          '"' :: (k.data.flatMap jsonEscapeChar ++
            '"' :: (':' :: ' ' :: ('"' :: (v.data.flatMap jsonEscapeChar ++
              '"' :: (',' :: ' ' :: (jsonDumpPairs (q :: qs) ++ ['\x7d'])))))) := by
        simp [jsonDumpPairs, jsonStringChars]
      rw [hshape, jsonPairsTail.eq_def]
      dsimp only
      rw [if_pos rfl]
      have hk1 := jsonStringTail_escape
        (':' :: ' ' :: ('"' :: (v.data.flatMap jsonEscapeChar ++
          '"' :: (',' :: ' ' :: (jsonDumpPairs (q :: qs) ++ ['\x7d']))))) k.data
      split
      · rename_i heq
        rw [hk1] at heq
        cases heq
      · rename_i k' r1' heq
        rw [hk1] at heq
        injection heq with heq2
        injection heq2 with hkk hrr
        subst hkk
        subst hrr
        dsimp only
        rw [if_pos (by exact ⟨rfl, rfl, rfl⟩)]
        have hv1 := jsonStringTail_escape
          (',' :: ' ' :: (jsonDumpPairs (q :: qs) ++ ['\x7d'])) v.data
        split
        · rename_i heq3
          rw [hv1] at heq3
          cases heq3
        · rename_i v' r3' heq3
          rw [hv1] at heq3
          injection heq3 with heq4
          injection heq4 with hvv hrr3
          subst hvv
          subst hrr3
          dsimp only
          rw [if_neg (by simp)]
          rw [if_pos (by exact ⟨rfl, rfl⟩)]
          rw [ih (by simp)]
          rw [strMkData, strMkData]
          rfl

theorem jsonDumpPairs_cons_head (p : String × String) (ps : List (String × String)) :
    ∃ t, jsonDumpPairs (p :: ps) = '"' :: t := by
  obtain ⟨k, v⟩ := p
  cases ps with
  | nil => exact ⟨_, rfl⟩
  | cons q qs => exact ⟨_, rfl⟩

theorem jsonParseChars_dump (d : List (String × String)) :
    jsonParseChars (jsonDumpChars d) = some d := by
  cases d with
  | nil => rfl
  | cons p ps =>
    obtain ⟨t, ht⟩ := jsonDumpPairs_cons_head p ps
    rw [jsonDumpChars, jsonParseChars.eq_def]
    dsimp only
    rw [if_pos rfl]
    rw [ht]
    rw [if_neg (by simp)]
    rw [← ht, jsonPairsTail_dump (p :: ps) (by simp)]

/-! ### Pipe-joined model-name list -/

/-- Python `'|'.join(names)`. -/
def pipeJoinChars : List (List Char) → List Char
  | [] => []
  | [n] => n
  | n :: ns => n ++ '|' :: pipeJoinChars ns

/-- Python `s.split('|')`. -/
def pipeSplitChars (l : List Char) : List (List Char) :=
  match hd : l.dropWhile (fun x => x != '|') with
  | [] => [l.takeWhile (fun x => x != '|')]
  | _ :: r2 => l.takeWhile (fun x => x != '|') :: pipeSplitChars r2
termination_by l.length
decreasing_by
  have h2 := length_dropWhile_le (fun x => x != '|') l
  rw [hd] at h2
  simp at h2 ⊢
  omega

theorem pipeSplit_join (names : List (List Char)) (hne : names ≠ [])
    (hnp : ∀ n ∈ names, ∀ c ∈ n, c ≠ '|') :
    pipeSplitChars (pipeJoinChars names) = names := by
  induction names with
  | nil => exact absurd rfl hne
  | cons n ns ih =>
    cases ns with
    | nil =>
      have hdw := dropWhile_sep_all '|' n (hnp n (by simp))
      have htw := takeWhile_sep_all '|' n (hnp n (by simp))
      rw [show pipeJoinChars [n] = n from rfl, pipeSplitChars.eq_def]
      split
      · rw [htw]
      · rename_i x r2 heq
        rw [hdw] at heq
        cases heq
    | cons m ms =>
      have hjoin : pipeJoinChars (n :: m :: ms) = n ++ '|' :: pipeJoinChars (m :: ms) := rfl
      have hdw := dropWhile_sep_append '|' n (pipeJoinChars (m :: ms)) (hnp n (by simp))
      have htw := takeWhile_sep_append '|' n (pipeJoinChars (m :: ms)) (hnp n (by simp))
      rw [hjoin, pipeSplitChars.eq_def]
      split
      · rename_i heq
        rw [hdw] at heq
        cases heq
      · rename_i x r2 heq
        rw [hdw] at heq
        injection heq with h1 h2
        subst h2
        rw [htw, ih (by simp) (fun q hq => hnp q (by simp [hq]))]

/-! ### The preference recorder -/

/-- Python dict insertion order semantics: an existing key keeps its
position and gets the new value; a new key is appended. -/
def pyDictInsert (d : List (String × String)) (k v : String) :
    List (String × String) :=
  if d.any (fun p => p.1 == k) then
    d.map (fun p => if p.1 == k then (k, v) else p)
  else d ++ [(k, v)]

/-- `{result["model"]: result["response"] for result in all_results}`. -/
def pyDictOfResults (all_results : List ModelResult) : List (String × String) :=
  all_results.foldl (fun d r => pyDictInsert d r.model r.response) []

theorem pyDictInsert_new (d : List (String × String)) (k v : String)
    (hk : ∀ p ∈ d, p.1 ≠ k) : pyDictInsert d k v = d ++ [(k, v)] := by
  have : d.any (fun p => p.1 == k) = false := by
    simp only [List.any_eq_false]
    intro p hp
    simpa using hk p hp
  simp [pyDictInsert, this]

theorem foldl_pyDictInsert_nodup (all_results : List ModelResult) :
    ∀ d : List (String × String),
      (all_results.map (·.model)).Nodup →
      (∀ p ∈ d, ∀ r ∈ all_results, p.1 ≠ r.model) →
      all_results.foldl (fun d r => pyDictInsert d r.model r.response) d =
        d ++ all_results.map (fun r => (r.model, r.response)) := by
  induction all_results with
  | nil => intro d _ _; simp
  | cons r rs ih =>
    intro d hnd hd
    have hnew : pyDictInsert d r.model r.response = d ++ [(r.model, r.response)] :=
      pyDictInsert_new d r.model r.response
        (fun p hp => hd p hp r (by simp))
    simp only [List.foldl_cons, hnew]
    rw [ih (d ++ [(r.model, r.response)]) (by simpa using hnd.of_cons)]
    · simp
    · intro p hp r2 hr2
      rcases List.mem_append.mp hp with hpd | hpr
      · exact hd p hpd r2 (by simp [hr2])
      · have hp2 : p = (r.model, r.response) := by simpa using hpr
        subst hp2
        have : r.model ∉ rs.map (·.model) := by
          simpa using (List.nodup_cons.mp hnd).1
        intro hcontra
        exact this (by
          simp only [List.mem_map]
          exact ⟨r2, hr2, hcontra.symm⟩)

theorem pyDictOfResults_nodup (all_results : List ModelResult)
    (hnd : (all_results.map (·.model)).Nodup) :
    pyDictOfResults all_results = all_results.map (fun r => (r.model, r.response)) := by
  simpa using foldl_pyDictInsert_nodup all_results [] hnd (by simp)

/-- One serialized CSV row, with String fields. -/
def csvRow (fields : List String) : String :=
  String.mk (csvRowChars (fields.map String.data))

/-- Re-split one serialized CSV row into String fields. -/
def csvParseRow (line : String) : Option (List String) :=
  (csvSplitFields line.data).map (List.map String.mk)

theorem csvParseRow_csvRow (fields : List String) (hne : fields ≠ []) :
    csvParseRow (csvRow fields) = some fields := by
  have hmap : fields.map String.data ≠ [] := by
    intro h
    exact hne (List.map_eq_nil_iff.mp h)
  simp only [csvParseRow, csvRow]
  rw [csvSplitFields_rowChars (fields.map String.data) hmap]
  simp only [Option.map_some']
  congr 1
  rw [List.map_map]
  have : (String.mk ∘ String.data) = id := by
    funext s
    exact strMkData s
  rw [this, List.map_id]

/-- The header row written when the log file is first created. -/
def headerLine : String :=
  csvRow ["timestamp", "question", "output_length",
    "selected_model", "all_models_compared", "all_responses_json"]

/-- The data row `save_preference_to_storage` appends for one call, with the
timestamp made explicit. -/
def recordLine (ts question output_length selected_model : String)
    (all_results : List ModelResult) : String :=
  csvRow [ts, question, output_length, selected_model,
    String.mk (pipeJoinChars ((pyDictOfResults all_results).map (fun p => p.1.data))),
    String.mk (jsonDumpChars (pyDictOfResults all_results))]

/-- `save_preference_to_storage` from app.py.  The CSV file is
`none` when it does not exist yet; opening in append mode creates it, and
the header is written only when the file did not exist before the call. -/
def save_preference_to_storage (ts question output_length selected_model : String)
    (all_results : List ModelResult) (fs : Option (List String)) :
    Option (List String) :=
  let line := recordLine ts question output_length selected_model all_results
  match fs with
  | none => some [headerLine, line]
  | some lines => some (lines ++ [line])

/-- The visibility updates `record_preference` returns to the UI: the no-op
path and the success path both return to the input view. -/
structure ViewUpdate where
  input_visible : Bool
  results_visible : Bool
  error_visible : Bool
  deriving DecidableEq, Repr

def backToInputView : ViewUpdate :=
  { input_visible := true, results_visible := false, error_visible := false }

/-- `record_preference(model_index, question, output_length, results)` from
the Blocks scope of app.py (the function wired to the preference buttons).
Returns the file state after the call and the view update it hands back. -/
def record_preference (model_index : Nat) (question output_length : String)
    (results : List ModelResult) (ts : String) (fs : Option (List String)) :
    Option (List String) × ViewUpdate :=
  if results = [] ∨ results.length ≤ model_index then (fs, backToInputView)
  else
    let selected_model := (results.getD model_index ⟨"", ""⟩).model
    (save_preference_to_storage ts question output_length selected_model results fs,
      backToInputView)

/-- The arguments of one `save_preference_to_storage` call. -/
structure SaveArgs where
  ts : String
  question : String
  output_length : String
  selected_model : String
  all_results : List ModelResult

def lineOf (a : SaveArgs) : String :=
  recordLine a.ts a.question a.output_length a.selected_model a.all_results

/-- Run a sequence of `save_preference_to_storage` calls against a file
state. -/
def applySaves (fs : Option (List String)) : List SaveArgs → Option (List String)
  | [] => fs
  | a :: rest =>
    applySaves
      (save_preference_to_storage a.ts a.question a.output_length a.selected_model
        a.all_results fs) rest

/-! ### Shared facts about the orchestrator -/

theorem filterMap_zip_sublist {α : Type} (l : List α) (bs : List Bool) :
    ((l.zip bs).filterMap (fun p => if p.2 then some p.1 else none)).Sublist l := by
  induction l generalizing bs with
  | nil => simp
  | cons x xs ih =>
    cases bs with
    | nil => simp
    | cons b bs2 =>
      cases b with
      | false =>
        have hstep : ((x :: xs).zip (false :: bs2)).filterMap
            (fun p => if p.2 then some p.1 else none) =
            (xs.zip bs2).filterMap (fun p => if p.2 then some p.1 else none) := by simp
        rw [hstep]
        exact (ih bs2).cons x
      | true =>
        have hstep : ((x :: xs).zip (true :: bs2)).filterMap
            (fun p => if p.2 then some p.1 else none) =
            x :: (xs.zip bs2).filterMap (fun p => if p.2 then some p.1 else none) := by
          simp
        rw [hstep]
        exact (ih bs2).cons₂ x

theorem compare_models_ok (oracle : ApiCall → Except String String)
    (question output_length : String) (selected_models : List Bool) (max_tokens : Nat)
    (h1 : pythonStrip question ≠ "") (h2 : selectedNames selected_models ≠ [])
    (h3 : pyDictGet LENGTH_MAP output_length = some max_tokens) :
    compare_models oracle question output_length selected_models =
      Except.ok
        (some ((selectedNames selected_models).map (fun model_name =>
          { model := model_name,
            response := (query_model oracle model_name question max_tokens).1 })),
         none,
         (selectedNames selected_models).flatMap (fun model_name =>
          (query_model oracle model_name question max_tokens).2)) := by
  rw [compare_models.eq_def]
  dsimp only
  rw [if_neg h1, if_neg h2, h3]

theorem query_model_calls (oracle : ApiCall → Except String String)
    (model_name question : String) (max_tokens : Nat) :
    ∀ c ∈ (query_model oracle model_name question max_tokens).2,
      c.max_tokens = max_tokens ∧ c.temperature = fixedTemperature ∧
        c.question = question := by
  intro c hc
  unfold query_model at hc
  match hm : pyDictGet MODEL_MAP model_name with
  | none => rw [hm] at hc; simp at hc
  | some model_id =>
    rw [hm] at hc
    dsimp only at hc
    by_cases hid : model_id = ""
    · simp [hid] at hc
    · rw [if_neg hid] at hc
      match ho : oracle (⟨model_id, question, max_tokens, fixedTemperature⟩ : ApiCall) with
      | Except.ok content =>
        rw [ho] at hc
        simp at hc
        subst hc
        exact ⟨rfl, rfl, rfl⟩
      | Except.error e =>
        rw [ho] at hc
        simp at hc
        subst hc
        exact ⟨rfl, rfl, rfl⟩

/-- C1: for every valid comparison (non-blank trimmed question, at least one
selected model, recognized length label), `compare_models` returns a result
list with exactly one entry per selected model, the entries listed in the
order `MODEL_MAP` lists the models (the selection is a boolean per registry
slot, so the output order is the registry order, a sublist of
`registryNames`). -/
theorem compare_models_registry_order (oracle : ApiCall → Except String String)
    (question output_length : String) (selected_models : List Bool) (max_tokens : Nat)
    (h1 : pythonStrip question ≠ "") (h2 : selectedNames selected_models ≠ [])
    (h3 : pyDictGet LENGTH_MAP output_length = some max_tokens) :
    ∃ results calls,
      compare_models oracle question output_length selected_models =
        Except.ok (some results, none, calls) ∧
      results.map (·.model) = selectedNames selected_models ∧
      results.length = (selectedNames selected_models).length ∧
      List.Sublist (selectedNames selected_models) registryNames := by
  refine ⟨_, _, compare_models_ok oracle question output_length selected_models
    max_tokens h1 h2 h3, ?_, ?_, ?_⟩
  · rw [List.map_map]
    have hcomp : ((fun x : ModelResult => x.model) ∘ fun model_name =>
        ({ model := model_name,
           response := (query_model oracle model_name question max_tokens).1 } :
          ModelResult)) = id := rfl
    rw [hcomp, List.map_id]
  · simp
  · exact filterMap_zip_sublist registryNames selected_models

theorem compare_models_registry_order_witness :
    ∃ results calls,
      compare_models stubOracle "q" "Short" [false, true, true] =
        Except.ok (some results, none, calls) ∧
      results.map (·.model) = selectedNames [false, true, true] ∧
      results.length = (selectedNames [false, true, true]).length ∧
      List.Sublist (selectedNames [false, true, true]) registryNames :=
  compare_models_registry_order stubOracle "q" "Short" [false, true, true] 150
    (by decide) (by decide) (by rfl)

/-- C2: `query_model` never lets an exception escape: when the underlying
API call raises with message `e`, it returns the string `"Error: " ++ e`
instead, and consequently `compare_models` returns the full result list for
every valid comparison no matter what the oracle does (including an oracle
whose every call raises). -/
theorem query_model_error_contained (oracle : ApiCall → Except String String) :
    (∀ model_name question max_tokens model_id e,
      pyDictGet MODEL_MAP model_name = some model_id → model_id ≠ "" →
      oracle ⟨model_id, question, max_tokens, fixedTemperature⟩ = Except.error e →
      (query_model oracle model_name question max_tokens).1 = "Error: " ++ e) ∧
    (∀ question output_length selected_models max_tokens,
      pythonStrip question ≠ "" → selectedNames selected_models ≠ [] →
      pyDictGet LENGTH_MAP output_length = some max_tokens →
      ∃ results calls,
        compare_models oracle question output_length selected_models =
          Except.ok (some results, none, calls) ∧
        results.length = (selectedNames selected_models).length) := by
  constructor
  · intro model_name question max_tokens model_id e hm hid ho
    unfold query_model
    rw [hm]
    dsimp only
    rw [if_neg hid, ho]
  · intro question output_length selected_models max_tokens h1 h2 h3
    refine ⟨_, _, compare_models_ok oracle question output_length selected_models
      max_tokens h1 h2 h3, ?_⟩
    simp

theorem query_model_error_contained_witness :
    (query_model failOracle "Llama 3.1 8B" "q" 150).1 = "Error: " ++ "boom" ∧
    ∃ results calls,
      compare_models failOracle "q" "Short" [true, true, true, true] =
        Except.ok (some results, none, calls) ∧
      results.length = (selectedNames [true, true, true, true]).length :=
  ⟨(query_model_error_contained failOracle).1 "Llama 3.1 8B" "q" 150
      "llama-3.1-8b-instant" "boom" (by rfl) (by decide) (by rfl),
   (query_model_error_contained failOracle).2 "q" "Short" [true, true, true, true] 150
      (by decide) (by decide) (by rfl)⟩

/-- C3: a question that is empty after trimming makes `compare_models`
return the EmptyQuestion validation error with no result list and an empty
outbound-call trace, for every oracle, length label and selection —
including an empty selection (the question check runs first). -/
theorem compare_models_empty_question (oracle : ApiCall → Except String String)
    (question output_length : String) (selected_models : List Bool)
    (h : pythonStrip question = "") :
    compare_models oracle question output_length selected_models =
      Except.ok (none, some "Please enter a question.", []) := by
  rw [compare_models.eq_def]
  dsimp only
  rw [if_pos h]

theorem compare_models_empty_question_witness :
    compare_models stubOracle "   " "Bogus" [] =
      Except.ok (none, some "Please enter a question.", []) :=
  compare_models_empty_question stubOracle "   " "Bogus" [] (by decide)

/-- C4: a non-blank question with an empty model selection makes
`compare_models` return the NoModelSelected validation error with no result
list and an empty outbound-call trace, for every oracle and length label. -/
theorem compare_models_no_model_selected (oracle : ApiCall → Except String String)
    (question output_length : String) (selected_models : List Bool)
    (h1 : pythonStrip question ≠ "") (h2 : selectedNames selected_models = []) :
    compare_models oracle question output_length selected_models =
      Except.ok (none, some "Please select at least one model.", []) := by
  rw [compare_models.eq_def]
  dsimp only
  rw [if_neg h1, if_pos h2]

theorem compare_models_no_model_selected_witness :
    compare_models stubOracle "q" "Bogus" [false, false, false, false] =
      Except.ok (none, some "Please select at least one model.", []) :=
  compare_models_no_model_selected stubOracle "q" "Bogus" [false, false, false, false]
    (by decide) (by decide)

/-- C9: every outbound call a comparison issues carries the max-token budget
`LENGTH_MAP` assigns to the length label (the fixed enumeration Short=150,
Medium=500, Full=1500) and the fixed temperature 0.7; neither depends on any
other input. -/
theorem calls_use_length_budget_and_fixed_temperature
    (oracle : ApiCall → Except String String)
    (question output_length : String) (selected_models : List Bool)
    (results : Option (List ModelResult)) (err : Option String) (calls : List ApiCall)
    (h : compare_models oracle question output_length selected_models =
      Except.ok (results, err, calls)) :
    (∀ c ∈ calls, pyDictGet LENGTH_MAP output_length = some c.max_tokens ∧
      c.temperature = 7 / 10 ∧ c.question = question) ∧
    pyDictGet LENGTH_MAP "Short" = some 150 ∧
    pyDictGet LENGTH_MAP "Medium" = some 500 ∧
    pyDictGet LENGTH_MAP "Full" = some 1500 := by
  refine ⟨?_, rfl, rfl, rfl⟩
  intro c hc
  rw [compare_models.eq_def] at h
  dsimp only at h
  by_cases h1 : pythonStrip question = ""
  · rw [if_pos h1] at h
    injection h with h3
    have h5 := congrArg (fun t => t.2.2) h3
    simp only at h5
    rw [← h5] at hc
    simp at hc
  · rw [if_neg h1] at h
    by_cases h2 : selectedNames selected_models = []
    · rw [if_pos h2] at h
      injection h with h3
      have h5 := congrArg (fun t => t.2.2) h3
      simp only at h5
      rw [← h5] at hc
      simp at hc
    · rw [if_neg h2] at h
      match hlen : pyDictGet LENGTH_MAP output_length with
      | none => rw [hlen] at h; cases h
      | some max_tokens =>
        rw [hlen] at h
        dsimp only at h
        injection h with h3
        have h5 := congrArg (fun t => t.2.2) h3
        simp only at h5
        rw [← h5] at hc
        simp only [List.mem_flatMap] at hc
        obtain ⟨name, hname, hcall⟩ := hc
        obtain ⟨hmax, htemp, hquestion⟩ := query_model_calls oracle name question
          max_tokens c hcall
        exact ⟨by rw [hmax], by rw [htemp]; rfl, hquestion⟩

theorem calls_use_length_budget_and_fixed_temperature_witness :
    (∀ c ∈ [(⟨"llama-3.1-8b-instant", "q", 150, fixedTemperature⟩ : ApiCall)],
      pyDictGet LENGTH_MAP "Short" = some c.max_tokens ∧
      c.temperature = 7 / 10 ∧ c.question = "q") ∧
    pyDictGet LENGTH_MAP "Short" = some 150 ∧
    pyDictGet LENGTH_MAP "Medium" = some 500 ∧
    pyDictGet LENGTH_MAP "Full" = some 1500 :=
  calls_use_length_budget_and_fixed_temperature stubOracle "q" "Short" [true]
    (some [⟨"Llama 3.1 8B", "a completion"⟩]) none
    [⟨"llama-3.1-8b-instant", "q", 150, fixedTemperature⟩] (by rfl)

/-- C10 counterexample: with a non-blank question, a non-empty selection and
an output-length label outside LENGTH_MAP, `compare_models` raises `KeyError`
(modelled as `Except.error`), so it returns no `(results, error)` pair at
all — the claim "for every input ... exactly one component is None" fails. -/
theorem compare_models_pair_invariant_cex :
    compare_models stubOracle "q" "Bogus" [true] =
      Except.error "KeyError: Bogus" ∧
    ¬∃ p : Option (List ModelResult) × Option String × List ApiCall,
        compare_models stubOracle "q" "Bogus" [true] = Except.ok p := by
  refine ⟨rfl, ?_⟩
  rintro ⟨p, hp⟩
  rw [show compare_models stubOracle "q" "Bogus" [true] =
    Except.error "KeyError: Bogus" from rfl] at hp
  cases hp

/-- C10 (amended): whenever the length label is in LENGTH_MAP, or a
validation check fails (in which case the label is never looked up),
`compare_models` returns a `(results, error)` pair with exactly one
component None: validation failures give `(none, some message)` and valid
comparisons give `(some results, none)`. -/
theorem compare_models_pair_invariant (oracle : ApiCall → Except String String)
    (question output_length : String) (selected_models : List Bool)
    (h : pyDictGet LENGTH_MAP output_length ≠ none ∨ pythonStrip question = "" ∨
      selectedNames selected_models = []) :
    ∃ results err calls,
      compare_models oracle question output_length selected_models =
        Except.ok (results, err, calls) ∧
      ((results = none ∧ err ≠ none) ∨ (results ≠ none ∧ err = none)) := by
  by_cases h1 : pythonStrip question = ""
  · exact ⟨none, some "Please enter a question.", [],
      compare_models_empty_question oracle question output_length selected_models h1,
      Or.inl ⟨rfl, by simp⟩⟩
  by_cases h2 : selectedNames selected_models = []
  · exact ⟨none, some "Please select at least one model.", [],
      compare_models_no_model_selected oracle question output_length selected_models
        h1 h2, Or.inl ⟨rfl, by simp⟩⟩
  · have h3 : pyDictGet LENGTH_MAP output_length ≠ none := by
      rcases h with h3 | h3 | h3
      · exact h3
      · exact absurd h3 h1
      · exact absurd h3 h2
    match hlen : pyDictGet LENGTH_MAP output_length with
    | none => exact absurd hlen h3
    | some max_tokens =>
      refine ⟨_, none, _, compare_models_ok oracle question output_length
        selected_models max_tokens h1 h2 hlen, Or.inr ⟨by simp, rfl⟩⟩

theorem compare_models_pair_invariant_witness :
    ∃ results err calls,
      compare_models stubOracle "q" "Short" [true] =
        Except.ok (results, err, calls) ∧
      ((results = none ∧ err ≠ none) ∨ (results ≠ none ∧ err = none)) :=
  compare_models_pair_invariant stubOracle "q" "Short" [true] (Or.inl (by decide))

/-- C5: recording a preference with an empty result list or an index at or
past the end of the result list is a no-op: the file state (the preference
log) is returned unchanged, nothing is written, and the view silently
returns to the input screen with no error shown. -/
theorem record_preference_out_of_range (model_index : Nat)
    (question output_length : String) (results : List ModelResult)
    (ts : String) (fs : Option (List String))
    (h : results = [] ∨ results.length ≤ model_index) :
    record_preference model_index question output_length results ts fs =
      (fs, backToInputView) := by
  rw [record_preference.eq_def]
  rw [if_pos h]

theorem record_preference_out_of_range_witness :
    record_preference 2 "q" "Short"
      [⟨"Llama 3.1 8B", "a completion"⟩, ⟨"GPT OSS 20B", "a completion"⟩]
      "2024-01-01T00:00:00" (some [headerLine]) =
      (some [headerLine], backToInputView) :=
  record_preference_out_of_range 2 "q" "Short"
    [⟨"Llama 3.1 8B", "a completion"⟩, ⟨"GPT OSS 20B", "a completion"⟩]
    "2024-01-01T00:00:00" (some [headerLine]) (Or.inr (by decide))

theorem applySaves_some (calls : List SaveArgs) :
    ∀ lines, applySaves (some lines) calls = some (lines ++ calls.map lineOf) := by
  induction calls with
  | nil => intro lines; simp [applySaves]
  | cons a rest ih =>
    intro lines
    rw [applySaves]
    rw [show save_preference_to_storage a.ts a.question a.output_length
      a.selected_model a.all_results (some lines) = some (lines ++ [lineOf a]) from rfl]
    rw [ih]
    simp

/-- C6: starting from a log file that does not exist, any nonempty sequence
of record calls produces a file whose lines are exactly the header row
followed by one data row per call, in call order: the header is written
exactly once, when the file is created, and never again. -/
theorem header_written_once (calls : List SaveArgs) (hne : calls ≠ []) :
    applySaves none calls = some (headerLine :: calls.map lineOf) := by
  cases calls with
  | nil => exact absurd rfl hne
  | cons a rest =>
    rw [applySaves]
    rw [show save_preference_to_storage a.ts a.question a.output_length
      a.selected_model a.all_results none = some [headerLine, lineOf a] from rfl]
    rw [applySaves_some]
    simp

theorem header_written_once_witness :
    applySaves none
      [⟨"t1", "q", "Short", "Llama 3.1 8B", [⟨"Llama 3.1 8B", "a completion"⟩]⟩,
       ⟨"t2", "q", "Short", "Llama 3.1 8B", [⟨"Llama 3.1 8B", "a completion"⟩]⟩] =
      some (headerLine ::
        List.map lineOf
          [⟨"t1", "q", "Short", "Llama 3.1 8B", [⟨"Llama 3.1 8B", "a completion"⟩]⟩,
           ⟨"t2", "q", "Short", "Llama 3.1 8B", [⟨"Llama 3.1 8B", "a completion"⟩]⟩]) :=
  header_written_once
    [⟨"t1", "q", "Short", "Llama 3.1 8B", [⟨"Llama 3.1 8B", "a completion"⟩]⟩,
     ⟨"t2", "q", "Short", "Llama 3.1 8B", [⟨"Llama 3.1 8B", "a completion"⟩]⟩]
    (by simp)

/-- C7: two record calls with the same question, length label, chosen model
and result set, differing only in timestamp, append two distinct rows that
agree on every field except the timestamp; every previously written line is
preserved unchanged as a prefix of the file. -/
theorem record_twice_two_rows (ts1 ts2 question output_length selected_model : String)
    (all_results : List ModelResult) (fs : Option (List String))
    (hts : ts1 ≠ ts2) :
    ∃ line1 line2 cmp js,
      line1 = csvRow [ts1, question, output_length, selected_model, cmp, js] ∧
      line2 = csvRow [ts2, question, output_length, selected_model, cmp, js] ∧
      line1 ≠ line2 ∧
      save_preference_to_storage ts2 question output_length selected_model all_results
        (save_preference_to_storage ts1 question output_length selected_model
          all_results fs) =
        some (fs.getD [headerLine] ++ [line1, line2]) := by
  have hneq : recordLine ts1 question output_length selected_model all_results ≠
      recordLine ts2 question output_length selected_model all_results := by
    intro he
    have p1 := csvParseRow_csvRow
      [ts1, question, output_length, selected_model,
       String.mk (pipeJoinChars ((pyDictOfResults all_results).map (fun p => p.1.data))),
       String.mk (jsonDumpChars (pyDictOfResults all_results))] (by simp)
    have p2 := csvParseRow_csvRow
      [ts2, question, output_length, selected_model,
       String.mk (pipeJoinChars ((pyDictOfResults all_results).map (fun p => p.1.data))),
       String.mk (jsonDumpChars (pyDictOfResults all_results))] (by simp)
    rw [show (csvRow
        [ts1, question, output_length, selected_model,
         String.mk (pipeJoinChars ((pyDictOfResults all_results).map (fun p => p.1.data))),
         String.mk (jsonDumpChars (pyDictOfResults all_results))]) =
      recordLine ts1 question output_length selected_model all_results from rfl] at p1
    rw [show (csvRow
        [ts2, question, output_length, selected_model,
         String.mk (pipeJoinChars ((pyDictOfResults all_results).map (fun p => p.1.data))),
         String.mk (jsonDumpChars (pyDictOfResults all_results))]) =
      recordLine ts2 question output_length selected_model all_results from rfl] at p2
    rw [he, p2] at p1
    injection p1 with p3
    injection p3 with p4
    exact hts p4.symm
  have hsave : save_preference_to_storage ts2 question output_length selected_model
      all_results (save_preference_to_storage ts1 question output_length
        selected_model all_results fs) =
      some (fs.getD [headerLine] ++
        [recordLine ts1 question output_length selected_model all_results,
         recordLine ts2 question output_length selected_model all_results]) := by
    cases fs with
    | none => rfl
    | some lines =>
      rw [show save_preference_to_storage ts1 question output_length selected_model
        all_results (some lines) =
        some (lines ++ [recordLine ts1 question output_length selected_model
          all_results]) from rfl]
      rw [show save_preference_to_storage ts2 question output_length selected_model
        all_results (some (lines ++ [recordLine ts1 question output_length
          selected_model all_results])) =
        some ((lines ++ [recordLine ts1 question output_length selected_model
          all_results]) ++ [recordLine ts2 question output_length selected_model
          all_results]) from rfl]
      simp
  exact ⟨recordLine ts1 question output_length selected_model all_results,
    recordLine ts2 question output_length selected_model all_results,
    String.mk (pipeJoinChars ((pyDictOfResults all_results).map
      (fun p : String × String => p.1.data))),
    String.mk (jsonDumpChars (pyDictOfResults all_results)),
    rfl, rfl, hneq, hsave⟩

theorem record_twice_two_rows_witness :
    ∃ line1 line2 cmp js,
      line1 = csvRow ["t1", "q", "Short", "Llama 3.1 8B", cmp, js] ∧
      line2 = csvRow ["t2", "q", "Short", "Llama 3.1 8B", cmp, js] ∧
      line1 ≠ line2 ∧
      save_preference_to_storage "t2" "q" "Short" "Llama 3.1 8B"
        [⟨"Llama 3.1 8B", "a completion"⟩]
        (save_preference_to_storage "t1" "q" "Short" "Llama 3.1 8B"
          [⟨"Llama 3.1 8B", "a completion"⟩] none) =
        some ((none : Option (List String)).getD [headerLine] ++ [line1, line2]) :=
  record_twice_two_rows "t1" "t2" "q" "Short" "Llama 3.1 8B"
    [⟨"Llama 3.1 8B", "a completion"⟩] none (by decide)

/-- C8: the row appended by a record call parses back to exactly what was
passed in: CSV-splitting the appended line yields the original six fields,
pipe-splitting the compared-models field yields the model names of the
result set in order, and JSON-decoding the responses field yields the
model-name-to-response mapping.  The hypotheses are the invariants that hold
for every result set produced by `compare_models` (at least one result,
distinct registry model names, no `|` in a model name). -/
theorem save_round_trip (ts question output_length selected_model : String)
    (all_results : List ModelResult) (fs : Option (List String))
    (hne : all_results ≠ [])
    (hnd : (all_results.map (·.model)).Nodup)
    (hpipe : ∀ r ∈ all_results, ∀ c ∈ r.model.data, c ≠ '|') :
    ∃ lines line,
      save_preference_to_storage ts question output_length selected_model
        all_results fs = some lines ∧
      lines.getLast? = some line ∧
      csvParseRow line = some [ts, question, output_length, selected_model,
        String.mk (pipeJoinChars (all_results.map (fun r => r.model.data))),
        String.mk (jsonDumpChars (all_results.map (fun r => (r.model, r.response))))] ∧
      pipeSplitChars (pipeJoinChars (all_results.map (fun r => r.model.data))) =
        all_results.map (fun r => r.model.data) ∧
      jsonParseChars (jsonDumpChars
        (all_results.map (fun r => (r.model, r.response)))) =
        some (all_results.map (fun r => (r.model, r.response))) := by
  have hdict : pyDictOfResults all_results =
      all_results.map (fun r => (r.model, r.response)) :=
    pyDictOfResults_nodup all_results hnd
  have hline : recordLine ts question output_length selected_model all_results =
      csvRow [ts, question, output_length, selected_model,
        String.mk (pipeJoinChars (all_results.map (fun r => r.model.data))),
        String.mk (jsonDumpChars (all_results.map (fun r => (r.model, r.response))))] := by
    rw [recordLine, hdict, List.map_map]
    rfl
  have hcsv : csvParseRow
      (recordLine ts question output_length selected_model all_results) =
      some [ts, question, output_length, selected_model,
        String.mk (pipeJoinChars (all_results.map (fun r => r.model.data))),
        String.mk (jsonDumpChars (all_results.map (fun r => (r.model, r.response))))] := by
    rw [hline]
    exact csvParseRow_csvRow _ (by simp)
  have hsplit : pipeSplitChars (pipeJoinChars (all_results.map (fun r => r.model.data))) =
      all_results.map (fun r => r.model.data) := by
    apply pipeSplit_join
    · simpa using hne
    · intro n hn c hc
      simp only [List.mem_map] at hn
      obtain ⟨r, hr, hrn⟩ := hn
      exact hpipe r hr c (by rw [← hrn] at hc; exact hc)
  have hjson := jsonParseChars_dump (all_results.map (fun r => (r.model, r.response)))
  cases fs with
  | none =>
    exact ⟨[headerLine, recordLine ts question output_length selected_model all_results],
      recordLine ts question output_length selected_model all_results,
      rfl, rfl, hcsv, hsplit, hjson⟩
  | some lines =>
    exact ⟨lines ++ [recordLine ts question output_length selected_model all_results],
      recordLine ts question output_length selected_model all_results,
      rfl, List.getLast?_concat lines, hcsv, hsplit, hjson⟩

theorem save_round_trip_witness :
    ∃ lines line,
      save_preference_to_storage "t1" "q" "Short" "Llama 3.1 8B"
        [⟨"Llama 3.1 8B", "a completion"⟩, ⟨"GPT OSS 20B", "Error: boom"⟩] none =
        some lines ∧
      lines.getLast? = some line ∧
      csvParseRow line = some ["t1", "q", "Short", "Llama 3.1 8B",
        String.mk (pipeJoinChars
          ([⟨"Llama 3.1 8B", "a completion"⟩,
            (⟨"GPT OSS 20B", "Error: boom"⟩ : ModelResult)].map (fun r => r.model.data))),
        String.mk (jsonDumpChars
          ([⟨"Llama 3.1 8B", "a completion"⟩,
            (⟨"GPT OSS 20B", "Error: boom"⟩ : ModelResult)].map
              (fun r => (r.model, r.response))))] ∧
      pipeSplitChars (pipeJoinChars
        ([⟨"Llama 3.1 8B", "a completion"⟩,
          (⟨"GPT OSS 20B", "Error: boom"⟩ : ModelResult)].map (fun r => r.model.data))) =
        [⟨"Llama 3.1 8B", "a completion"⟩,
          (⟨"GPT OSS 20B", "Error: boom"⟩ : ModelResult)].map (fun r => r.model.data) ∧
      jsonParseChars (jsonDumpChars
        ([⟨"Llama 3.1 8B", "a completion"⟩,
          (⟨"GPT OSS 20B", "Error: boom"⟩ : ModelResult)].map
            (fun r => (r.model, r.response)))) =
        some ([⟨"Llama 3.1 8B", "a completion"⟩,
          (⟨"GPT OSS 20B", "Error: boom"⟩ : ModelResult)].map
            (fun r => (r.model, r.response))) :=
  save_round_trip "t1" "q" "Short" "Llama 3.1 8B"
    [⟨"Llama 3.1 8B", "a completion"⟩, ⟨"GPT OSS 20B", "Error: boom"⟩] none
    (by decide) (by decide) (by decide)
